import Mathlib

/-!
Verification of the plotting-support utilities of `scvelo/plotting/utils.py`.

The module operates on an annotated dataset (`AnnData`): observations with
per-observation metadata `obs`, per-feature metadata `var` / `var_names`,
embeddings `obsm`, alternate expression layers `layers`, and unstructured
metadata `uns` used as a palette cache.  The functions below are direct
translations of the Python source; expression matrices are stored
column-major (one list of values per feature), and numeric values are
modelled as rationals.
-/

namespace ScveloPlot

/-- An `adata.obs` column: either a categorical column (with its list of
categories and the per-observation category codes, as produced by
`strings_to_categoricals`, which converts string columns to categoricals,
so plain string columns are modelled as already-converted categoricals) or a
continuous (numeric) column. -/
inductive ObsCol where
  | cat (categories : List String) (codes : List Nat)
  | cont (values : List Rat)
deriving DecidableEq

/-- The annotated dataset object.  `obs`, `var`, `layers` and `uns` are
association lists keyed by name; `varm` and `obsm` are modelled by their key
sets only (their array contents are never read by this module); `X` and the
layer matrices are column-major (one column per entry of `var_names`). -/
structure AnnData where
  obs : List (String × ObsCol)
  var : List (String × List Rat)
  var_names : List String
  varm : List String
  obsm : List String
  layers : List (String × List (List Rat))
  X : List (List Rat)
  uns : List (String × List String)
  n_obs : Nat
deriving DecidableEq

/-- Lookup in an association list keyed by strings (dict / DataFrame column
access). -/
def lookupA {α : Type} (l : List (String × α)) (k : String) : Option α :=
  (l.find? (fun p => p.1 == k)).map (fun p => p.2)

/-- Whether `c` names a categorical column of `adata.obs`
(`c in adata.obs.keys() and cat(adata.obs[c])`). -/
def isCatObs (a : AnnData) (c : String) : Bool :=
  match lookupA a.obs c with
  | some (ObsCol.cat _ _) => true
  | _ => false

/-- Translation of `is_categorical(adata, c)` for a string key `c`.  The
matplotlib predicate `is_color_like` is external state and is passed in as
`icl`. -/
def is_categorical (icl : String → Bool) (a : AnnData) (c : String) : Bool :=
  (!(a.var_names.contains c)) && (isCatObs a c || icl c)

/-- Translation of `default_basis(adata)`: the last of `pca`, `tsne`, `umap`
whose `X_`-prefixed array is present in `adata.obsm`, a `ValueError`
otherwise. -/
def default_basis (a : AnnData) : Except String String :=
  let keys := ["pca", "tsne", "umap"].filter (fun k => a.obsm.contains ("X_" ++ k))
  if keys.isEmpty then Except.error "No basis specified."
  else Except.ok (keys.getLastD "")

/-- Translation of `check_basis(adata, basis)`: if `basis` is a key of
`adata.obsm` but `X_basis` is not, alias it to the conventional name. -/
def check_basis (a : AnnData) (basis : String) : AnnData :=
  if a.obsm.contains basis && !(a.obsm.contains ("X_" ++ basis))
  then { a with obsm := a.obsm ++ ["X_" ++ basis] }
  else a

/-- First-occurrence deduplication, the behaviour of `pandas.unique` on a
list of strings. -/
def pdUnique (l : List String) : List String :=
  l.foldl (fun acc x => if acc.contains x then acc else acc ++ [x]) []

/-- Translation of `make_unique_list(key)` restricted to its list-of-strings
branch, where it returns `pandas.unique(key)`. -/
def make_unique_list (keys : List String) : List String :=
  pdUnique keys

/-- Drop a leading `X_` from a key (`key[2:]` guarded by
`key.startswith('X_')`). -/
def stripX (k : String) : String :=
  if k.take 2 == "X_" then k.drop 2 else k

/-- The concatenation of known annotation-field names that
`make_unique_valid_list` validates against: keys of `obs`, `var`, `varm`,
`obsm`, the `obsm` keys without their first two characters, and the `layers`
keys. -/
def validKeys (a : AnnData) : List String :=
  a.obs.map (fun p => p.1) ++ a.var.map (fun p => p.1) ++ a.varm ++ a.obsm
    ++ a.obsm.map (fun k => k.drop 2) ++ a.layers.map (fun p => p.1)

/-- Translation of `make_unique_valid_list(adata, keys)` for a list of string
keys: deduplicate, strip `X_` prefixes, run `check_basis` on each key
(mutating `obsm`), then keep only the keys found among the valid annotation
fields or `var_names`.  Unmatched keys are merely logged, so the function is
total. -/
def make_unique_valid_list (a : AnnData) (keys : List String) :
    List String × AnnData :=
  let ks := (make_unique_list keys).map stripX
  let a' := ks.foldl check_basis a
  (ks.filter (fun k => (validKeys a').contains k || a'.var_names.contains k), a')

/-- The linear-interpolation step of `np.percentile` on an already sorted
list `s`: with `h = q (n-1) / 100`, the value
`s[⌊h⌋] + (h - ⌊h⌋) (s[⌊h⌋+1] - s[⌊h⌋])`. -/
def percentileSorted (s : List Rat) (q : Rat) : Rat :=
  s.getD ⌊q * ((s.length : Rat) - 1) / 100⌋.toNat 0
    + (q * ((s.length : Rat) - 1) / 100
        - ((⌊q * ((s.length : Rat) - 1) / 100⌋.toNat : Nat) : Rat))
      * (s.getD (⌊q * ((s.length : Rat) - 1) / 100⌋.toNat + 1)
            (s.getD ⌊q * ((s.length : Rat) - 1) / 100⌋.toNat 0)
          - s.getD ⌊q * ((s.length : Rat) - 1) / 100⌋.toNat 0)

/-- Translation of `np.percentile(c, q)` with the default linear
interpolation: sort the values, then interpolate at rank `q (n-1) / 100`. -/
def percentile (c : List Rat) (q : Rat) : Rat :=
  percentileSorted (c.insertionSort (· ≤ ·)) q

/-- The `perc` argument of `clip`: either a scalar or a two-element percentile
range. -/
inductive PercArg where
  | scalar (p : Rat)
  | pair (lo hi : Rat)
deriving DecidableEq

/-- Translation of `clip(c, perc)`: a scalar `perc` is widened to
`[perc, 100]` when `perc < 50` and to `[0, perc]` otherwise, then the values
are clipped to the corresponding percentiles (`np.clip(c, lb, ub)`, i.e.
`min (max x lb) ub` elementwise). -/
def clip (c : List Rat) (perc : PercArg) : List Rat :=
  let pr := match perc with
    | PercArg.scalar p => if p < 50 then (p, (100 : Rat)) else ((0 : Rat), p)
    | PercArg.pair lo hi => (lo, hi)
  let lb := percentile c pr.1
  let ub := percentile c pr.2
  c.map (fun x => min (max x lb) ub)

/-- Modelled from the spec: `scvelo.plotting.palettes.default_26`, the
26-color default palette.  The palettes module is not part of the sources
under verification; the spec fixes only its length (26), so placeholder
color values are used. -/
def default_26 : List String :=
  List.replicate 26 "default26color"

/-- Modelled from the spec: `scvelo.plotting.palettes.default_64`, the
64-color default palette.  The palettes module is not part of the sources
under verification; the spec fixes only its length (64), so placeholder
color values are used. -/
def default_64 : List String :=
  List.replicate 64 "default64color"

/-- A palette value: either a plain list of colors or a `Cycler` (whose
`by_key()['color']` is the stored color list). -/
inductive Palette where
  | list (cs : List String)
  | cyc (cs : List String)
deriving DecidableEq

/-- The colors carried by a palette (`palette` itself for a list,
`palette.by_key()['color']` for a Cycler). -/
def paletteColors : Palette → List String
  | Palette.list cs => cs
  | Palette.cyc cs => cs

/-- Translation of `default_palette(palette)`: `None` yields the matplotlib
prop cycle (external state, passed in as `dflt`), a list is wrapped into a
Cycler, and a Cycler is returned unchanged. -/
def default_palette (dflt : List String) (palette : Option Palette) : Palette :=
  match palette with
  | none => Palette.cyc dflt
  | some (Palette.list cs) => Palette.cyc cs
  | some p => p

/-- Translation of `adjust_palette(palette, length)`: when the given palette
has fewer colors than `length`, fall back to `default_26` for
`length <= 28`, to `default_64` for `length <= len(default_64)`, and to an
all-grey palette of the requested length beyond that; a list input stays a
list, anything else is wrapped as a Cycler. -/
def adjust_palette (palette : Palette) (length : Nat) : Palette :=
  let islist := match palette with
    | Palette.list _ => true
    | Palette.cyc _ => false
  if (paletteColors palette).length < length then
    let np := if length ≤ 28 then default_26
      else if length ≤ default_64.length then default_64
      else List.replicate length "grey"
    if islist then Palette.list np else Palette.cyc np
  else palette

/-- Errors raised by the colorkey-resolution functions: the explicit
`ValueError('color key is invalid! ...')`, a `KeyError` / attribute error
from accessing a missing or non-categorical column, an `IndexError` from an
out-of-range list index, and a `TypeError` from percentile-clipping a
categorical series. -/
inductive PlotError where
  | invalidKey
  | keyError (k : String)
  | indexError
  | typeError
deriving DecidableEq

/-- A resolved colorkey: a single literal color, a per-observation color
array, a raw categorical series, or a numeric value array. -/
inductive ColorValue where
  | single (c : String)
  | colors (cs : List String)
  | catSeries (categories : List String) (codes : List Nat)
  | values (vs : List Rat)
deriving DecidableEq

/-- Translation of `get_colors(adata, c)`.  A color-like `c` is returned
as-is.  Otherwise `c` must be a categorical `obs` column; if no palette is
cached under `c + '_colors'` in `adata.uns`, one is generated with
`default_palette` / `adjust_palette`, truncated to the number of categories,
and stored.  Finally each observation's category code is looked up in the
cached palette (out-of-range indices raise, after the cache write).  The
(possibly updated) dataset is returned alongside the result.  The
palette-cache step is split out as `get_colors_pal`: if no palette is stored
under `c + '_colors'` in `adata.uns`, it generates one with
`default_palette` / `adjust_palette`, truncates it to the number of
categories and stores it, returning the palette to use together with the
(possibly updated) dataset. -/
def get_colors_pal (dflt : List String) (a : AnnData) (c : String)
    (cats : List String) : List String × AnnData :=
  match lookupA a.uns (c ++ "_colors") with
  | some pal => (pal, a)
  | none =>
    let stored :=
      (paletteColors (adjust_palette (default_palette dflt none) cats.length)).take
        cats.length
    (stored, { a with uns := a.uns ++ [(c ++ "_colors", stored)] })

def get_colors (icl : String → Bool) (dflt : List String) (a : AnnData)
    (c : String) : Except PlotError ColorValue × AnnData :=
  if icl c then (Except.ok (ColorValue.single c), a)
  else
    match lookupA a.obs c with
    | some (ObsCol.cat cats codes) =>
      match (List.range a.n_obs).mapM
          (fun i => (codes.get? i).bind
            (fun k => (get_colors_pal dflt a c cats).1.get? k)) with
      | some cs => (Except.ok (ColorValue.colors cs), (get_colors_pal dflt a c cats).2)
      | none => (Except.error PlotError.indexError, (get_colors_pal dflt a c cats).2)
    | _ => (Except.error (PlotError.keyError c), a)

/-- Apply the optional percentile clipping (`if perc is not None: clip`). -/
def applyPerc (perc : Option PercArg) (vs : List Rat) : List Rat :=
  match perc with
  | some p => clip vs p
  | none => vs

/-- Translation of `interpret_colorkey(adata, c, layer, perc)` for a string
key `c` (the `None`, sparse-matrix and raw-array branches do not apply to
string keys).  Categorical-or-color-like keys go through `get_colors`;
otherwise the key is resolved against `obs`, then `var_names` (gene
expression from the requested layer or `X`), then `var`, and an invalid key
raises the `ValueError`. -/
def interpret_colorkey (icl : String → Bool) (dflt : List String)
    (a : AnnData) (c : String) (layer : Option String) (perc : Option PercArg) :
    Except PlotError ColorValue × AnnData :=
  if is_categorical icl a c then get_colors icl dflt a c
  else
    match lookupA a.obs c with
    | some (ObsCol.cont vs) => (Except.ok (ColorValue.values (applyPerc perc vs)), a)
    | some (ObsCol.cat cats codes) =>
      match perc with
      | none => (Except.ok (ColorValue.catSeries cats codes), a)
      | some _ => (Except.error PlotError.typeError, a)
    | none =>
      if a.var_names.contains c then
        let idx := a.var_names.indexOf c
        let mat := match layer with
          | some l =>
            match lookupA a.layers l with
            | some m => m
            | none => a.X
          | none => a.X
        (Except.ok (ColorValue.values (applyPerc perc (mat.getD idx []))), a)
      else
        match lookupA a.var c with
        | some vs => (Except.ok (ColorValue.values (applyPerc perc vs)), a)
        | none => (Except.error PlotError.invalidKey, a)

/-- Left-to-right removal of every occurrence of `pat` (Python
`str.replace(pat, '')`), written with an explicit fuel so that it is
structurally recursive; `removeAll` instantiates the fuel with the string
length. -/
def removeAllFuel (pat : List Char) : Nat → List Char → List Char
  | 0, s => s
  | _ + 1, [] => []
  | fuel + 1, ch :: rest =>
    if pat ≠ [] ∧ pat <+: (ch :: rest)
    then removeAllFuel pat fuel ((ch :: rest).drop pat.length)
    else ch :: removeAllFuel pat fuel rest

/-- Python `save.replace(pat, '')` on strings. -/
def strRemoveAll (s pat : String) : String :=
  String.mk (removeAllFuel pat.data s.data.length s.data)

/-- The figure extensions recognised by `savefig_or_show`, in the order they
are tried. -/
def knownExts : List String := [".svg", ".pdf", ".png"]

/-- The extension / base-name split performed at the top of
`savefig_or_show` on a string `save` argument: when no explicit `ext` is
given, the first known extension that `save` ends with becomes the extension
(without its dot) and every occurrence of it is removed from `save`. -/
def splitSaveExt (save : String) (ext : Option String) : Option String × String :=
  match ext with
  | some e => (some e, save)
  | none =>
    match knownExts.find? (fun te => decide (te.data <:+ save.data)) with
    | some te => (some (te.drop 1), strRemoveAll save te)
    | none => (none, save)

/-- The file path written by `savefig_or_show` for a string `save` argument:
`figdir + plot_prefix + writekey + plot_suffix + '.' + ext`, where the
processed `save` string is appended to the (optional) writekey and the
extension defaults to the configured figure format. -/
def savefig_filename (figdir pfx sfx fmt : String) (writekey : Option String)
    (ext : Option String) (save : String) : String :=
  let es := splitSaveExt save ext
  let wk := (match writekey with
    | some w => if 0 < w.length then w ++ "_" else ""
    | none => "") ++ es.2
  figdir ++ pfx ++ wk ++ sfx ++ "." ++ (es.1.getD fmt)

instance {ε α : Type} [DecidableEq ε] [DecidableEq α] : DecidableEq (Except ε α) := fun x y =>
  match x, y with
  | Except.error e, Except.error f =>
    if h : e = f then isTrue (by rw [h]) else isFalse (fun hh => by cases hh; exact h rfl)
  | Except.ok a, Except.ok b =>
    if h : a = b then isTrue (by rw [h]) else isFalse (fun hh => by cases hh; exact h rfl)
  | Except.error _, Except.ok _ => isFalse (fun hh => by cases hh)
  | Except.ok _, Except.error _ => isFalse (fun hh => by cases hh)

/-- Helper: `find?` skips a block in which nothing matches. -/
theorem find?_append_none {α : Type} (l₁ l₂ : List α) (p : α → Bool)
    (h : l₁.find? p = none) : (l₁ ++ l₂).find? p = l₂.find? p := by
  induction l₁ with
  | nil => simp
  | cons a t ih =>
    rw [List.find?] at h
    cases hp : p a with
    | true => rw [hp] at h; simp at h
    | false =>
      rw [hp] at h
      simp only [List.cons_append, List.find?, hp]
      exact ih h

/-- Helper: appending a fresh key to an association list makes it visible to
`lookupA`. -/
theorem lookupA_append_of_none {α : Type} (l : List (String × α)) (k : String)
    (v : α) (h : lookupA l k = none) : lookupA (l ++ [(k, v)]) k = some v := by
  unfold lookupA at h ⊢
  have hf : l.find? (fun p => p.1 == k) = none := by
    cases hh : l.find? (fun p => p.1 == k) with
    | none => rfl
    | some x => rw [hh] at h; simp at h
  rw [find?_append_none _ _ _ hf]
  simp

/-- Helper: `get_colors` can fail only with a key or index error, never with
the invalid-colorkey `ValueError`. -/
theorem get_colors_ne_invalidKey (icl : String → Bool) (dflt : List String)
    (a : AnnData) (c : String) :
    (get_colors icl dflt a c).1 ≠ Except.error PlotError.invalidKey := by
  unfold get_colors
  split
  · simp
  · split
    · split <;> simp
    · simp

/-- C1: a key that is simultaneously a valid color literal (`is_color_like`)
and the name of a categorical observation annotation, and is not a gene
name, is resolved by `interpret_colorkey` (via `is_categorical` and
`get_colors`) to the literal color itself, with no change to the dataset. -/
theorem interpret_colorkey_color_literal_wins
    (icl : String → Bool) (dflt : List String) (a : AnnData) (c : String)
    (layer : Option String) (perc : Option PercArg)
    (hcolor : icl c = true) (hcat : isCatObs a c = true)
    (hvar : a.var_names.contains c = false) :
    interpret_colorkey icl dflt a c layer perc
      = (Except.ok (ColorValue.single c), a) := by
  have hic : is_categorical icl a c = true := by
    rw [is_categorical, hvar, hcat]
    rfl
  unfold interpret_colorkey
  rw [if_pos hic]
  unfold get_colors
  rw [if_pos hcolor]

def sampleC1 : AnnData :=
  { obs := [("red", ObsCol.cat ["u", "v"] [0, 1])]
    var := [], var_names := [], varm := [], obsm := []
    layers := [], X := [], uns := [], n_obs := 2 }

/-- Witness for C1 at a concrete dataset in which the key `red` is both
color-like and a categorical `obs` column. -/
theorem interpret_colorkey_color_literal_wins_witness :
    interpret_colorkey (fun s => s == "red") ["blue"] sampleC1 "red" none none
      = (Except.ok (ColorValue.single "red"), sampleC1) :=
  interpret_colorkey_color_literal_wins _ _ _ _ _ _ (by decide) (by decide)
    (by decide)

/-- C5: `default_basis` raises the missing-basis `ValueError` when none of
the embeddings `X_pca`, `X_tsne`, `X_umap` is present in `obsm`, and returns
`umap` when all three are present. -/
theorem default_basis_none_or_umap (a : AnnData) :
    (a.obsm.contains "X_pca" = false → a.obsm.contains "X_tsne" = false →
      a.obsm.contains "X_umap" = false →
      default_basis a = Except.error "No basis specified.")
    ∧ (a.obsm.contains "X_pca" = true → a.obsm.contains "X_tsne" = true →
      a.obsm.contains "X_umap" = true → default_basis a = Except.ok "umap") := by
  constructor
  · intro h1 h2 h3
    rw [default_basis]
    simp only [List.filter]
    rw [show ("X_" ++ "pca" : String) = "X_pca" from rfl,
      show ("X_" ++ "tsne" : String) = "X_tsne" from rfl,
      show ("X_" ++ "umap" : String) = "X_umap" from rfl, h1, h2, h3]
    rfl
  · intro h1 h2 h3
    rw [default_basis]
    simp only [List.filter]
    rw [show ("X_" ++ "pca" : String) = "X_pca" from rfl,
      show ("X_" ++ "tsne" : String) = "X_tsne" from rfl,
      show ("X_" ++ "umap" : String) = "X_umap" from rfl, h1, h2, h3]
    rfl

def sampleC5a : AnnData :=
  { obs := [], var := [], var_names := [], varm := [], obsm := ["spatial"]
    layers := [], X := [], uns := [], n_obs := 0 }

def sampleC5b : AnnData :=
  { obs := [], var := [], var_names := [], varm := []
    obsm := ["X_pca", "X_tsne", "X_umap"]
    layers := [], X := [], uns := [], n_obs := 0 }

/-- Witness for C5 at two concrete datasets: one with no known embedding,
one with all three. -/
theorem default_basis_none_or_umap_witness :
    default_basis sampleC5a = Except.error "No basis specified."
    ∧ default_basis sampleC5b = Except.ok "umap" :=
  ⟨(default_basis_none_or_umap sampleC5a).1 (by decide) (by decide) (by decide),
    (default_basis_none_or_umap sampleC5b).2 (by decide) (by decide) (by decide)⟩

/-- C9: when a palette is already cached under `c + '_colors'` in
`adata.uns`, `get_colors` reads the stored palette and leaves the dataset
entirely unchanged, so a second call on the returned dataset gives the same
result as the first. -/
theorem get_colors_existing_palette_frame
    (icl : String → Bool) (dflt : List String) (a : AnnData) (c : String)
    (pal : List String) (hp : lookupA a.uns (c ++ "_colors") = some pal) :
    (get_colors icl dflt a c).2 = a
    ∧ get_colors icl dflt ((get_colors icl dflt a c).2) c
        = get_colors icl dflt a c := by
  have h2 : (get_colors icl dflt a c).2 = a := by
    have hpal : ∀ cats, (get_colors_pal dflt a c cats).2 = a := by
      intro cats
      unfold get_colors_pal
      rw [hp]
    unfold get_colors
    split
    · rfl
    · split
      · split
        · exact hpal _
        · exact hpal _
      · rfl
  exact ⟨h2, by rw [h2]⟩

def sampleC9 : AnnData :=
  { obs := [("clusters", ObsCol.cat ["a", "b"] [0, 1, 1])]
    var := [], var_names := [], varm := [], obsm := []
    layers := [], X := []
    uns := [("clusters_colors", ["#111111", "#222222"])], n_obs := 3 }

/-- Witness for C9 at a concrete dataset with a pre-existing cached
palette. -/
theorem get_colors_existing_palette_frame_witness :
    (get_colors (fun s => s == "red") ["blue"] sampleC9 "clusters").2 = sampleC9
    ∧ get_colors (fun s => s == "red") ["blue"]
        ((get_colors (fun s => s == "red") ["blue"] sampleC9 "clusters").2) "clusters"
      = get_colors (fun s => s == "red") ["blue"] sampleC9 "clusters" :=
  get_colors_existing_palette_frame _ _ _ _ ["#111111", "#222222"] (by decide)

/-- Helper: at an exact integer rank the interpolation degenerates to the
list entry at that rank. -/
theorem percentileSorted_natIndex (s : List Rat) (q : Rat) (j : Nat)
    (hq : q * ((s.length : Rat) - 1) / 100 = (j : Rat)) :
    percentileSorted s q = s.getD j 0 := by
  unfold percentileSorted
  rw [hq, Int.floor_natCast, Int.toNat_natCast]
  ring

/-- Helper: every element is at most the 100th percentile (the maximum). -/
theorem le_percentile_100 (c : List Rat) (x : Rat) (hx : x ∈ c) :
    x ≤ percentile c 100 := by
  have hperm := List.perm_insertionSort (· ≤ ·) c
  have hsort := List.sorted_insertionSort (· ≤ ·) c
  set s := c.insertionSort (· ≤ ·) with hs
  have hxs : x ∈ s := hperm.mem_iff.mpr hx
  have hn : 0 < s.length := List.length_pos.mpr (by
    intro h
    rw [h] at hxs
    cases hxs)
  have hq : (100 : Rat) * ((s.length : Rat) - 1) / 100 = ((s.length - 1 : Nat) : Rat) := by
    rw [mul_div_cancel_left₀ _ (by norm_num : (100 : Rat) ≠ 0), Nat.cast_sub hn]
    norm_num
  rw [percentile, ← hs, percentileSorted_natIndex s 100 (s.length - 1) hq,
    List.getD_eq_getElem s 0 (by omega : s.length - 1 < s.length)]
  obtain ⟨i, hi⟩ := List.mem_iff_get.mp hxs
  rw [← hi]
  have := hsort.rel_get_of_le
    (show i ≤ (⟨s.length - 1, by omega⟩ : Fin s.length) from by
      rcases i with ⟨iv, hiv⟩
      exact Fin.mk_le_mk.mpr (by omega))
  simpa using this

/-- Helper: the 0th percentile (the minimum) is at most every element. -/
theorem percentile_0_le (c : List Rat) (x : Rat) (hx : x ∈ c) :
    percentile c 0 ≤ x := by
  have hperm := List.perm_insertionSort (· ≤ ·) c
  have hsort := List.sorted_insertionSort (· ≤ ·) c
  set s := c.insertionSort (· ≤ ·) with hs
  have hxs : x ∈ s := hperm.mem_iff.mpr hx
  have hn : 0 < s.length := List.length_pos.mpr (by
    intro h
    rw [h] at hxs
    cases hxs)
  have hq : (0 : Rat) * ((s.length : Rat) - 1) / 100 = ((0 : Nat) : Rat) := by
    norm_num
  rw [percentile, ← hs, percentileSorted_natIndex s 0 0 hq,
    List.getD_eq_getElem s 0 (by omega : 0 < s.length)]
  obtain ⟨i, hi⟩ := List.mem_iff_get.mp hxs
  rw [← hi]
  have := hsort.rel_get_of_le
    (show (⟨0, by omega⟩ : Fin s.length) ≤ i from by
      rcases i with ⟨iv, hiv⟩
      exact Fin.mk_le_mk.mpr (by omega))
  simpa using this

/-- C10: a scalar percentile argument `perc` is interpreted by `clip` as the
range `[perc, 100]` when `perc < 50` and as `[0, perc]` when `perc >= 50`,
and consequently a single number clips only one tail: for `perc < 50` no
value decreases, for `perc >= 50` no value increases. -/
theorem clip_scalar_perc_single_tail (c : List Rat) (p : Rat) :
    (p < 50 → clip c (PercArg.scalar p) = clip c (PercArg.pair p 100)
      ∧ List.Forall₂ (· ≤ ·) c (clip c (PercArg.scalar p)))
    ∧ (50 ≤ p → clip c (PercArg.scalar p) = clip c (PercArg.pair 0 p)
      ∧ List.Forall₂ (fun x y => y ≤ x) c (clip c (PercArg.scalar p))) := by
  constructor
  · intro hp
    have heq : clip c (PercArg.scalar p) = clip c (PercArg.pair p 100) := by
      simp only [clip]
      rw [if_pos hp]
    refine ⟨heq, ?_⟩
    rw [heq]
    simp only [clip]
    rw [List.forall₂_map_right_iff]
    exact List.forall₂_same.mpr
      (fun x hx => le_min (le_max_left _ _) (le_percentile_100 c x hx))
  · intro hp
    have heq : clip c (PercArg.scalar p) = clip c (PercArg.pair 0 p) := by
      simp only [clip]
      rw [if_neg (not_lt.mpr hp)]
    refine ⟨heq, ?_⟩
    rw [heq]
    simp only [clip]
    rw [List.forall₂_map_right_iff]
    refine List.forall₂_same.mpr (fun x hx => ?_)
    calc min (max x (percentile c 0)) (percentile c p)
        ≤ max x (percentile c 0) := min_le_left _ _
      _ = x := max_eq_left (percentile_0_le c x hx)

/-- Witness for C10 at a concrete array and the scalar percentiles 2 and
60. -/
theorem clip_scalar_perc_single_tail_witness :
    (clip [0, 1] (PercArg.scalar 2) = clip [0, 1] (PercArg.pair 2 100)
      ∧ List.Forall₂ (· ≤ ·) [0, 1] (clip [0, 1] (PercArg.scalar 2)))
    ∧ (clip [0, 1] (PercArg.scalar 60) = clip [0, 1] (PercArg.pair 0 60)
      ∧ List.Forall₂ (fun x y => y ≤ x) [0, 1] (clip [0, 1] (PercArg.scalar 60))) :=
  ⟨(clip_scalar_perc_single_tail [0, 1] 2).1 (by norm_num),
    (clip_scalar_perc_single_tail [0, 1] 60).2 (by norm_num)⟩

/-- Helper: replicated lists with distinct elements are distinct. -/
theorem replicate_ne (m n : Nat) (s t : String) (hm : 0 < m) (hst : s ≠ t) :
    List.replicate m s ≠ List.replicate n t := by
  intro h
  have hl : m = n := by
    have := congrArg List.length h
    simpa using this
  subst hl
  cases m with
  | zero => omega
  | succ k =>
    rw [List.replicate_succ, List.replicate_succ] at h
    injection h with h1 h2
    exact hst h1

/-- C3: when the given palette has fewer colors than the requested length,
`adjust_palette` falls back to `default_26`, then `default_64`, then to an
all-grey palette of the requested length; the chosen tier depends only on
the requested length (the category count), with the grey tier reached
exactly when the count exceeds the size of `default_64`. -/
theorem adjust_palette_fallback_tiers (p q : Palette) (n : Nat)
    (hp : (paletteColors p).length < n) (hq : (paletteColors q).length < n) :
    paletteColors (adjust_palette p n)
      = (if n ≤ 28 then default_26
         else if n ≤ default_64.length then default_64
         else List.replicate n "grey")
    ∧ paletteColors (adjust_palette p n) = paletteColors (adjust_palette q n)
    ∧ (default_64.length < n ↔
        paletteColors (adjust_palette p n) = List.replicate n "grey") := by
  have key : ∀ r : Palette, (paletteColors r).length < n →
      paletteColors (adjust_palette r n)
        = (if n ≤ 28 then default_26
           else if n ≤ default_64.length then default_64
           else List.replicate n "grey") := by
    intro r hr
    cases r with
    | list cs =>
      simp only [adjust_palette, paletteColors] at hr ⊢
      rw [if_pos hr]
      simp [paletteColors]
    | cyc cs =>
      simp only [adjust_palette, paletteColors] at hr ⊢
      rw [if_pos hr]
      simp [paletteColors]
  refine ⟨key p hp, (key p hp).trans (key q hq).symm, ?_⟩
  rw [key p hp]
  have h64 : default_64.length = 64 := by simp [default_64]
  by_cases h28 : n ≤ 28
  · rw [if_pos h28]
    constructor
    · intro h
      omega
    · intro hcontra
      exact absurd hcontra (replicate_ne 26 n "default26color" "grey"
        (by omega) (by decide))
  · by_cases hle : n ≤ default_64.length
    · rw [if_neg h28, if_pos hle]
      constructor
      · intro h
        omega
      · intro hcontra
        exact absurd hcontra (replicate_ne 64 n "default64color" "grey"
          (by omega) (by decide))
    · rw [if_neg h28, if_neg hle]
      exact ⟨fun _ => rfl, fun _ => by omega⟩

/-- Witness for C3 at concrete short palettes and the requested length
30 (the `default_64` tier). -/
theorem adjust_palette_fallback_tiers_witness :
    paletteColors (adjust_palette (Palette.cyc ["a"]) 30)
      = (if 30 ≤ 28 then default_26
         else if 30 ≤ default_64.length then default_64
         else List.replicate 30 "grey")
    ∧ paletteColors (adjust_palette (Palette.cyc ["a"]) 30)
        = paletteColors (adjust_palette (Palette.list ["b", "c"]) 30)
    ∧ (default_64.length < 30 ↔
        paletteColors (adjust_palette (Palette.cyc ["a"]) 30)
          = List.replicate 30 "grey") :=
  adjust_palette_fallback_tiers (Palette.cyc ["a"]) (Palette.list ["b", "c"]) 30
    (by decide) (by decide)

/-- C4: for a categorical observation annotation with fewer than 27
categories and no stored palette, `get_colors` generates a palette whose
length is at least the category count and caches its first
`category count` entries in `adata.uns` under the key `c + '_colors'`. -/
theorem get_colors_caches_palette (icl : String → Bool) (dflt : List String)
    (a : AnnData) (c : String) (cats : List String) (codes : List Nat)
    (hicl : icl c = false)
    (hobs : lookupA a.obs c = some (ObsCol.cat cats codes))
    (huns : lookupA a.uns (c ++ "_colors") = none)
    (hsmall : cats.length < 27) :
    cats.length
      ≤ (paletteColors (adjust_palette (default_palette dflt none) cats.length)).length
    ∧ lookupA ((get_colors icl dflt a c).2).uns (c ++ "_colors")
        = some ((paletteColors
            (adjust_palette (default_palette dflt none) cats.length)).take cats.length)
    ∧ ((paletteColors
          (adjust_palette (default_palette dflt none) cats.length)).take
            cats.length).length = cats.length := by
  have hlen : cats.length
      ≤ (paletteColors (adjust_palette (default_palette dflt none) cats.length)).length := by
    simp only [default_palette]
    by_cases hd : (paletteColors (Palette.cyc dflt)).length < cats.length
    · simp only [adjust_palette]
      rw [if_pos hd]
      have h28 : cats.length ≤ 28 := by omega
      rw [if_pos h28]
      simp only [paletteColors, default_26]
      simp
      omega
    · simp only [adjust_palette]
      rw [if_neg hd]
      simp only [paletteColors] at hd ⊢
      omega
  have hsnd : ((get_colors icl dflt a c).2).uns
      = a.uns ++ [(c ++ "_colors",
          (paletteColors
            (adjust_palette (default_palette dflt none) cats.length)).take cats.length)] := by
    have hpal : get_colors_pal dflt a c cats
        = ((paletteColors
              (adjust_palette (default_palette dflt none) cats.length)).take cats.length,
            { a with uns := a.uns ++ [(c ++ "_colors",
                (paletteColors
                  (adjust_palette (default_palette dflt none) cats.length)).take
                    cats.length)] }) := by
      unfold get_colors_pal
      rw [huns]
    unfold get_colors
    rw [if_neg (by rw [hicl]; exact Bool.false_ne_true), hobs]
    dsimp only
    split
    · rw [hpal]
    · rw [hpal]
  refine ⟨hlen, ?_, by simp [List.length_take]; omega⟩
  rw [hsnd]
  exact lookupA_append_of_none a.uns (c ++ "_colors") _ huns

def sampleC4 : AnnData :=
  { obs := [("celltype", ObsCol.cat ["a", "b", "c"] [0, 1, 2, 1])]
    var := [], var_names := [], varm := [], obsm := []
    layers := [], X := [], uns := [], n_obs := 4 }

/-- Witness for C4 at a concrete dataset with a 3-category annotation and an
empty palette cache. -/
theorem get_colors_caches_palette_witness :
    (3 : Nat)
      ≤ (paletteColors (adjust_palette (default_palette ["u", "v"] none) 3)).length
    ∧ lookupA ((get_colors (fun s => s == "red") ["u", "v"] sampleC4 "celltype").2).uns
        ("celltype" ++ "_colors")
      = some ((paletteColors (adjust_palette (default_palette ["u", "v"] none) 3)).take 3)
    ∧ ((paletteColors (adjust_palette (default_palette ["u", "v"] none) 3)).take 3).length
      = 3 :=
  get_colors_caches_palette (fun s => s == "red") ["u", "v"] sampleC4 "celltype"
    ["a", "b", "c"] [0, 1, 2, 1] (by decide) (by decide) (by decide) (by decide)

/-- C6: `make_unique_valid_list` returns the deduplicated, `X_`-stripped
input keys filtered to those matching a known annotation field (`obs`,
`var`, `varm`, `obsm`, `obsm` without prefix, `layers`) or `var_names` of
the (possibly basis-aliased) dataset: the result is a sublist of the
deduplicated stripped keys, every returned key matches a field, every key
matching none of the fields is dropped, and every deduplicated stripped key
that does match a field is retained in the result; being a total function
it never raises on an unmatched key. -/
theorem make_unique_valid_list_drops_unmatched (a : AnnData) (keys : List String) :
    ((make_unique_valid_list a keys).1).Sublist ((make_unique_list keys).map stripX)
    ∧ (∀ k ∈ (make_unique_valid_list a keys).1,
        (validKeys (make_unique_valid_list a keys).2).contains k = true
          ∨ ((make_unique_valid_list a keys).2).var_names.contains k = true)
    ∧ (∀ k ∈ (make_unique_list keys).map stripX,
        (validKeys (make_unique_valid_list a keys).2).contains k = false →
        ((make_unique_valid_list a keys).2).var_names.contains k = false →
        k ∉ (make_unique_valid_list a keys).1)
    ∧ (∀ k ∈ (make_unique_list keys).map stripX,
        ((validKeys (make_unique_valid_list a keys).2).contains k = true
          ∨ ((make_unique_valid_list a keys).2).var_names.contains k = true) →
        k ∈ (make_unique_valid_list a keys).1) := by
  refine ⟨List.filter_sublist _, ?_, ?_, ?_⟩
  · intro k hk
    have hk' : k ∈ ((make_unique_list keys).map stripX).filter
        (fun k => (validKeys ((((make_unique_list keys).map stripX).foldl check_basis a))).contains k
          || ((((make_unique_list keys).map stripX).foldl check_basis a)).var_names.contains k) := hk
    have hpred := (List.mem_filter.mp hk').2
    exact (Bool.or_eq_true _ _).mp hpred
  · intro k hk h1 h2 hmem
    have hm' : k ∈ ((make_unique_list keys).map stripX).filter
        (fun k => (validKeys ((((make_unique_list keys).map stripX).foldl check_basis a))).contains k
          || ((((make_unique_list keys).map stripX).foldl check_basis a)).var_names.contains k) := hmem
    have hpred := (List.mem_filter.mp hm').2
    have e1 : (validKeys ((((make_unique_list keys).map stripX).foldl check_basis a))).contains k = false := h1
    have e2 : ((((make_unique_list keys).map stripX).foldl check_basis a)).var_names.contains k = false := h2
    rw [e1, e2] at hpred
    cases hpred
  · intro k hk hor
    show k ∈ ((make_unique_list keys).map stripX).filter
        (fun k => (validKeys ((((make_unique_list keys).map stripX).foldl check_basis a))).contains k
          || ((((make_unique_list keys).map stripX).foldl check_basis a)).var_names.contains k)
    refine List.mem_filter.mpr ⟨hk, ?_⟩
    rcases hor with h | h
    · have e1 : (validKeys ((((make_unique_list keys).map stripX).foldl check_basis a))).contains k = true := h
      rw [e1]
      rfl
    · have e2 : ((((make_unique_list keys).map stripX).foldl check_basis a)).var_names.contains k = true := h
      rw [e2]
      simp

def sampleC6 : AnnData :=
  { obs := [("clusters", ObsCol.cat ["a"] [0])]
    var := [], var_names := ["gene1"], varm := [], obsm := []
    layers := [], X := [[1]], uns := [], n_obs := 1 }

/-- Witness for C6: at a concrete dataset, the unmatched key `foo` is
dropped from the returned list while the matching key `clusters` is
retained. -/
theorem make_unique_valid_list_drops_unmatched_witness :
    "foo" ∉ (make_unique_valid_list sampleC6 ["clusters", "foo"]).1
    ∧ "clusters" ∈ (make_unique_valid_list sampleC6 ["clusters", "foo"]).1 :=
  ⟨(make_unique_valid_list_drops_unmatched sampleC6 ["clusters", "foo"]).2.2.1 "foo"
      (by decide) (by decide) (by decide),
    (make_unique_valid_list_drops_unmatched sampleC6 ["clusters", "foo"]).2.2.2
      "clusters" (by decide) (by decide)⟩

/-- C2 (amended): `interpret_colorkey` raises the invalid-color-key
`ValueError` if and only if the key is not color-like, not a categorical
observation annotation, not a key of `obs`, not a gene name, and not a key
of `var`.  (The original claim also asserted that in every other case a
value is returned without raising, which is refuted by the counterexample:
the categorical palette path can still raise an `IndexError`.) -/
theorem interpret_colorkey_invalid_key_iff
    (icl : String → Bool) (dflt : List String) (a : AnnData) (c : String)
    (layer : Option String) (perc : Option PercArg) :
    (interpret_colorkey icl dflt a c layer perc).1 = Except.error PlotError.invalidKey
    ↔ (icl c = false ∧ isCatObs a c = false ∧ lookupA a.obs c = none
        ∧ a.var_names.contains c = false ∧ lookupA a.var c = none) := by
  by_cases hic : is_categorical icl a c = true
  · have hne := get_colors_ne_invalidKey icl dflt a c
    constructor
    · intro h
      unfold interpret_colorkey at h
      rw [if_pos hic] at h
      exact absurd h hne
    · rintro ⟨h1, h2, _, h4, _⟩
      rw [is_categorical, h4, h2, h1] at hic
      simp at hic
  · unfold interpret_colorkey
    rw [if_neg hic]
    cases hobs : lookupA a.obs c with
    | some col =>
      cases col with
      | cont vs => simp
      | cat cats codes =>
        cases perc with
        | none => simp
        | some p => simp
    | none =>
      dsimp only
      by_cases hvn : a.var_names.contains c = true
      · rw [if_pos hvn]
        simp only [hvn]
        constructor
        · intro h
          exact absurd h (by simp)
        · rintro ⟨_, _, _, h4, _⟩
          simp at h4
      · have hvn' : a.var_names.contains c = false := by
          cases hcv : a.var_names.contains c with
          | true => exact absurd hcv hvn
          | false => rfl
        rw [if_neg hvn]
        have hboth : isCatObs a c = false ∧ icl c = false := by
          rw [is_categorical, hvn'] at hic
          simp at hic
          constructor
          · cases hcc : isCatObs a c with
            | true => exact absurd hcc (by intro hh; exact absurd (hic.1) (by rw [hh]; simp))
            | false => rfl
          · cases hcc : icl c with
            | true => exact absurd hcc (by intro hh; exact absurd (hic.2) (by rw [hh]; simp))
            | false => rfl
        cases hvar : lookupA a.var c with
        | some vs => simp
        | none =>
          simp [hboth.1, hboth.2]
          intro hmem
          have : a.var_names.contains c = true := by
            simpa using hmem
          rw [this] at hvn'
          cases hvn'

def sampleC2 : AnnData :=
  { obs := [("celltype", ObsCol.cat (List.replicate 27 "x") (List.range 27))]
    var := [], var_names := [], varm := [], obsm := []
    layers := [], X := [], uns := [], n_obs := 27 }

/-- C2 counterexample: the key `celltype` names a categorical observation
annotation (with 27 categories), a case in which the claim asserts that
`interpret_colorkey` returns a value without raising; instead the call
raises an `IndexError`, because the generated fallback palette `default_26`
has only 26 colors, fewer than the 27 categories. -/
theorem interpret_colorkey_valid_cat_key_raises :
    isCatObs sampleC2 "celltype" = true
    ∧ (interpret_colorkey (fun s => s == "red") (List.replicate 10 "tab")
        sampleC2 "celltype" none none).1 = Except.error PlotError.indexError :=
  ⟨by decide, by decide⟩

/-- Helper: two suffixes of the same list with equal lengths coincide. -/
theorem suffix_eq_of_length {α : Type} (l₁ l₂ s : List α) (h₁ : l₁ <:+ s)
    (h₂ : l₂ <:+ s) (hl : l₁.length = l₂.length) : l₁ = l₂ := by
  obtain ⟨t₁, ht₁⟩ := h₁
  obtain ⟨t₂, ht₂⟩ := h₂
  have happ : t₁ ++ l₁ = t₂ ++ l₂ := ht₁.trans ht₂.symm
  have hlen : t₁.length = t₂.length := by
    have := congrArg List.length happ
    simp at this
    omega
  exact (List.append_inj happ hlen).2

/-- Helper: when the pattern occurs only as the final suffix, removing all
its occurrences is the same as stripping it from the end. -/
theorem removeAllFuel_of_unique (pat : List Char) :
    ∀ (fuel : Nat) (s : List Char), s.length ≤ fuel → pat ≠ [] → pat <:+ s →
      (∀ i, i < s.length - pat.length → ¬ pat <+: s.drop i) →
      removeAllFuel pat fuel s = s.take (s.length - pat.length) := by
  intro fuel
  induction fuel with
  | zero =>
    intro s hs hne hsuf _
    have hnil : s = [] := List.eq_nil_of_length_eq_zero (by omega)
    subst hnil
    exact absurd (List.eq_nil_of_suffix_nil hsuf) hne
  | succ fuel ih =>
    intro s hs hne hsuf huniq
    cases s with
    | nil => exact absurd (List.eq_nil_of_suffix_nil hsuf) hne
    | cons ch rest =>
      rw [removeAllFuel]
      have hlenle : pat.length ≤ (ch :: rest).length := by
        obtain ⟨t, ht⟩ := hsuf
        have := congrArg List.length ht
        simp at this ⊢
        omega
      by_cases hpre : pat ≠ [] ∧ pat <+: (ch :: rest)
      · rw [if_pos hpre]
        by_cases heq : (ch :: rest).length = pat.length
        · have hdrop : ((ch :: rest).drop pat.length) = [] := by
            apply List.drop_eq_nil_of_le
            omega
          rw [hdrop, show (ch :: rest).length - pat.length = 0 by omega,
            List.take_zero]
          cases fuel with
          | zero => rfl
          | succ k => rfl
        · exfalso
          have h0 : 0 < (ch :: rest).length - pat.length := by omega
          exact huniq 0 h0 (by simpa using hpre.2)
      · rw [if_neg hpre]
        push_neg at hpre
        have hpre2 : ¬ pat <+: (ch :: rest) := hpre hne
        have hsuf' : pat <:+ rest := by
          rcases List.suffix_cons_iff.mp hsuf with h | h
          · exact absurd (⟨[], by simp [h]⟩ : pat <+: (ch :: rest)) hpre2
          · exact h
        have hlenp : pat.length ≤ rest.length := by
          obtain ⟨t, ht⟩ := hsuf'
          have := congrArg List.length ht
          simp at this
          omega
        have huniq' : ∀ i, i < rest.length - pat.length → ¬ pat <+: rest.drop i := by
          intro i hi
          have := huniq (i + 1) (by simp; omega)
          simpa using this
        rw [ih rest (by simp at hs; omega) hne hsuf' huniq']
        rw [show (ch :: rest).length - pat.length = (rest.length - pat.length) + 1
          from by simp; omega]
        rfl

/-- C7 (amended): for a `save` string ending in a known image extension and
no explicit `ext`, `savefig_or_show` takes the extension from the string
(`try_ext[1:]`), and the base name is the string with every occurrence of
that extension removed (`save.replace(try_ext, '')`), which coincides with
stripping the final extension whenever the extension substring occurs
nowhere else. -/
theorem savefig_ext_from_save_string (save e : String)
    (he : e ∈ knownExts) (hsuf : e.data <:+ save.data) :
    splitSaveExt save none = (some (e.drop 1), strRemoveAll save e)
    ∧ ((∀ i, i < save.data.length - e.data.length → ¬ e.data <+: save.data.drop i) →
        (strRemoveAll save e).data
          = save.data.take (save.data.length - e.data.length)) := by
  have hstrip : (∀ i, i < save.data.length - e.data.length →
        ¬ e.data <+: save.data.drop i) →
      (strRemoveAll save e).data
        = save.data.take (save.data.length - e.data.length) := by
    intro huniq
    have hne : e.data ≠ [] := by
      simp only [knownExts, List.mem_cons, List.mem_singleton,
        List.not_mem_nil, or_false] at he
      rcases he with rfl | rfl | rfl <;> decide
    unfold strRemoveAll
    rw [removeAllFuel_of_unique e.data save.data.length save.data (le_refl _)
      hne hsuf huniq]
  refine ⟨?_, hstrip⟩
  simp only [knownExts, List.mem_cons, List.mem_singleton,
    List.not_mem_nil, or_false] at he
  rcases he with rfl | rfl | rfl
  · unfold splitSaveExt
    rw [show knownExts.find? (fun te => decide (te.data <:+ save.data))
        = some ".svg" from by
      simp only [knownExts, List.find?]
      rw [decide_eq_true hsuf]]
  · have hnsvg : ¬ (".svg" : String).data <:+ save.data := by
      intro h
      have := suffix_eq_of_length (".svg" : String).data (".pdf" : String).data
        save.data h hsuf (by decide)
      exact absurd this (by decide)
    unfold splitSaveExt
    rw [show knownExts.find? (fun te => decide (te.data <:+ save.data))
        = some ".pdf" from by
      simp only [knownExts, List.find?]
      rw [decide_eq_false hnsvg, decide_eq_true hsuf]]
  · have hnsvg : ¬ (".svg" : String).data <:+ save.data := by
      intro h
      have := suffix_eq_of_length (".svg" : String).data (".png" : String).data
        save.data h hsuf (by decide)
      exact absurd this (by decide)
    have hnpdf : ¬ (".pdf" : String).data <:+ save.data := by
      intro h
      have := suffix_eq_of_length (".pdf" : String).data (".png" : String).data
        save.data h hsuf (by decide)
      exact absurd this (by decide)
    unfold splitSaveExt
    rw [show knownExts.find? (fun te => decide (te.data <:+ save.data))
        = some ".png" from by
      simp only [knownExts, List.find?]
      rw [decide_eq_false hnsvg, decide_eq_false hnpdf, decide_eq_true hsuf]]

/-- C7 counterexample: for the explicit filename `a.png.png`, the code
removes every occurrence of `.png`, yielding the base name `a`, not the
suffix-stripped base name `a.png` asserted by the claim. -/
theorem savefig_replace_all_occurrences :
    (splitSaveExt "a.png.png" none).1 = some "png"
    ∧ (splitSaveExt "a.png.png" none).2 = "a"
    ∧ ("a" : String) ≠ "a.png" :=
  ⟨by decide, by decide, by decide⟩

/-- Witness for C7 (amended) at the concrete filename `fig.svg`, where the
extension occurs only at the end. -/
theorem savefig_ext_from_save_string_witness :
    splitSaveExt "fig.svg" none
      = (some (String.drop ".svg" 1), strRemoveAll "fig.svg" ".svg")
    ∧ (strRemoveAll "fig.svg" ".svg").data
        = "fig.svg".data.take ("fig.svg".data.length - ".svg".data.length) :=
  ⟨(savefig_ext_from_save_string "fig.svg" ".svg" (by decide) (by decide)).1,
    (savefig_ext_from_save_string "fig.svg" ".svg" (by decide) (by decide)).2
      (by decide)⟩

/-- Helper: floor-then-toNat of a quotient of naturals is natural division. -/
theorem floor_toNat_natDiv (a b : Nat) : ⌊(a : Rat) / (b : Rat)⌋.toNat = a / b := by
  rw [Int.floor_toNat, Nat.floor_div_nat ((a : Rat)) b, Nat.floor_natCast]

/-- Helper: in a sorted list, values strictly below a bound that is at most
the entry at index `m` occupy only the first `m` positions. -/
theorem countP_lt_le_of_sorted (s : List Rat) (hs : List.Sorted (· ≤ ·) s)
    (b : Rat) (m : Nat) (hm : m < s.length) (hb : b ≤ s.get ⟨m, hm⟩) :
    s.countP (fun x => decide (x < b)) ≤ m := by
  have key : s.countP (fun x => decide (x < b))
      = (s.take m).countP (fun x => decide (x < b))
        + (s.drop m).countP (fun x => decide (x < b)) := by
    conv_lhs => rw [← List.take_append_drop m s]
    rw [List.countP_append]
  have h2 : (s.drop m).countP (fun x => decide (x < b)) = 0 := by
    rw [List.countP_eq_zero]
    intro x hxd
    obtain ⟨⟨j, hjlt⟩, hj⟩ := List.mem_iff_get.mp hxd
    have hjs : m + j < s.length := by simp at hjlt; omega
    have hxe : x = s.get ⟨m + j, hjs⟩ := by
      rw [← hj]
      simp [List.getElem_drop]
    have hle : s.get ⟨m, hm⟩ ≤ s.get ⟨m + j, hjs⟩ :=
      hs.rel_get_of_le (by exact Fin.mk_le_mk.mpr (by omega))
    rw [hxe]
    simp only [decide_eq_true_eq]
    exact not_lt.mpr (le_trans hb hle)
  have h1 : (s.take m).countP (fun x => decide (x < b)) ≤ m :=
    le_trans (List.countP_le_length _) (by rw [List.length_take]; exact min_le_left _ _)
  rw [key, h2]
  omega

/-- Helper: in a sorted list, values strictly above a bound that is at least
the entry at index `m` occupy only the positions after `m`. -/
theorem countP_gt_le_of_sorted (s : List Rat) (hs : List.Sorted (· ≤ ·) s)
    (b : Rat) (m : Nat) (hm : m < s.length) (hb : s.get ⟨m, hm⟩ ≤ b) :
    s.countP (fun x => decide (b < x)) ≤ s.length - m - 1 := by
  have key : s.countP (fun x => decide (b < x))
      = (s.take (m + 1)).countP (fun x => decide (b < x))
        + (s.drop (m + 1)).countP (fun x => decide (b < x)) := by
    conv_lhs => rw [← List.take_append_drop (m + 1) s]
    rw [List.countP_append]
  have h2 : (s.take (m + 1)).countP (fun x => decide (b < x)) = 0 := by
    rw [List.countP_eq_zero]
    intro x hxd
    obtain ⟨⟨j, hjlt⟩, hj⟩ := List.mem_iff_get.mp hxd
    have hjs : j < s.length := by simp at hjlt; omega
    have hjm : j ≤ m := by simp at hjlt; omega
    have hxe : x = s.get ⟨j, hjs⟩ := by
      rw [← hj]
      simp [List.getElem_take]
    have hle : s.get ⟨j, hjs⟩ ≤ s.get ⟨m, hm⟩ :=
      hs.rel_get_of_le (by exact Fin.mk_le_mk.mpr hjm)
    rw [hxe]
    simp only [decide_eq_true_eq]
    exact not_lt.mpr (le_trans hle hb)
  have h1 : (s.drop (m + 1)).countP (fun x => decide (b < x)) ≤ s.length - m - 1 :=
    le_trans (List.countP_le_length _) (by rw [List.length_drop]; omega)
  rw [key, h2]
  omega

/-- Helper: the interpolated percentile of a sorted list lies between the
floor-rank entry and its successor. -/
theorem percentileSorted_bounds (s : List Rat) (hs : List.Sorted (· ≤ ·) s)
    (q : Rat) (hh : 0 ≤ q * ((s.length : Rat) - 1) / 100) :
    s.getD ⌊q * ((s.length : Rat) - 1) / 100⌋.toNat 0 ≤ percentileSorted s q
    ∧ percentileSorted s q
        ≤ s.getD (⌊q * ((s.length : Rat) - 1) / 100⌋.toNat + 1)
            (s.getD ⌊q * ((s.length : Rat) - 1) / 100⌋.toNat 0) := by
  unfold percentileSorted
  set hval := q * ((s.length : Rat) - 1) / 100 with hhdef
  set fl := ⌊hval⌋.toNat with hfldef
  set x0 := s.getD fl 0 with hx0def
  set x1 := s.getD (fl + 1) x0 with hx1def
  have hcast : ((fl : Nat) : Rat) = (⌊hval⌋ : Rat) := by
    have h2 : ((fl : Nat) : Int) = ⌊hval⌋ := by
      rw [hfldef]
      exact Int.toNat_of_nonneg (Int.floor_nonneg.mpr hh)
    exact_mod_cast congrArg (Int.cast : Int → Rat) h2
  have hfl_le : ((fl : Nat) : Rat) ≤ hval := by
    rw [hcast]
    exact Int.floor_le _
  have hfrac_lt : hval - ((fl : Nat) : Rat) < 1 := by
    rw [hcast]
    have := Int.lt_floor_add_one hval
    linarith
  have hx01 : x0 ≤ x1 := by
    rw [hx0def, hx1def]
    by_cases hlt : fl + 1 < s.length
    · rw [List.getD_eq_getElem s _ hlt, List.getD_eq_getElem s 0 (by omega)]
      have := hs.rel_get_of_le
        (show (⟨fl, by omega⟩ : Fin s.length) ≤ ⟨fl + 1, hlt⟩ from
          Fin.mk_le_mk.mpr (by omega))
      simpa using this
    · rw [List.getD_eq_default s (s.getD fl 0) (show s.length ≤ fl + 1 from by omega)]
  have hd0 : 0 ≤ hval - ((fl : Nat) : Rat) := sub_nonneg.mpr hfl_le
  have hd1 : 0 ≤ x1 - x0 := sub_nonneg.mpr hx01
  constructor
  · nlinarith [mul_nonneg hd0 hd1]
  · have hprod : (hval - ((fl : Nat) : Rat)) * (x1 - x0) ≤ 1 * (x1 - x0) :=
      mul_le_mul_of_nonneg_right (by linarith) hd1
    linarith

/-- C8 (amended): percentile clipping with bounds `[2, 98]` changes only the
values strictly below the 2nd percentile or strictly above the 98th
percentile, and at each tail the number of changed values is at most
`⌊2 (n-1) / 100⌋ + 1` (low tail) and `(n-1) - ⌊98 (n-1) / 100⌋` (high tail),
i.e. roughly 2% of the array, though for short arrays this can exceed an
exact 2% (see the counterexample). -/
theorem clip_percentile_tail_bounds (c : List Rat) :
    List.Forall₂ (fun x y => percentile c 2 ≤ x → x ≤ percentile c 98 → y = x) c
      (clip c (PercArg.pair 2 98))
    ∧ c.countP (fun x => decide (x < percentile c 2)) ≤ 2 * (c.length - 1) / 100 + 1
    ∧ c.countP (fun x => decide (percentile c 98 < x))
        ≤ (c.length - 1) - 98 * (c.length - 1) / 100 := by
  refine ⟨?_, ?_, ?_⟩
  · simp only [clip]
    rw [List.forall₂_map_right_iff]
    refine List.forall₂_same.mpr (fun x hx => ?_)
    intro hlb hub
    rw [max_eq_left hlb, min_eq_left hub]
  · by_cases hc : c = []
    · subst hc
      simp
    · have hn : 0 < c.length := List.length_pos.mpr hc
      have hperm : List.Perm (c.insertionSort (· ≤ ·)) c :=
        List.perm_insertionSort _ c
      have hsort := List.sorted_insertionSort (· ≤ ·) c
      set s := c.insertionSort (· ≤ ·) with hsdef
      have hlen : s.length = c.length := hperm.length_eq
      have hpc : percentile c 2 = percentileSorted s 2 := by
        rw [hsdef]
        rfl
      have hcnt : c.countP (fun x => decide (x < percentile c 2))
          = s.countP (fun x => decide (x < percentile c 2)) :=
        (hperm.countP_eq _).symm
      have hflval : ⌊(2 : Rat) * ((s.length : Rat) - 1) / 100⌋.toNat
          = 2 * (s.length - 1) / 100 := by
        have hcast2 : (2 : Rat) * ((s.length : Rat) - 1) / 100
            = ((2 * (s.length - 1) : Nat) : Rat) / ((100 : Nat) : Rat) := by
          push_cast [show 1 ≤ s.length from by omega]
          ring
        rw [hcast2, floor_toNat_natDiv]
      have hh2 : 0 ≤ (2 : Rat) * ((s.length : Rat) - 1) / 100 := by
        have hone : (1 : Rat) ≤ (s.length : Rat) := by
          exact_mod_cast (by omega : 1 ≤ s.length)
        have hnum : 0 ≤ (2 : Rat) * ((s.length : Rat) - 1) := by nlinarith
        exact div_nonneg hnum (by norm_num)
      have hub2 := (percentileSorted_bounds s hsort 2 hh2).2
      rw [hflval] at hub2
      rw [hcnt, hpc]
      by_cases hcase : 2 * (s.length - 1) / 100 + 1 < s.length
      · have hble : percentileSorted s 2
            ≤ s.get ⟨2 * (s.length - 1) / 100 + 1, hcase⟩ := by
          rw [List.getD_eq_getElem s _ hcase] at hub2
          simpa using hub2
        have hcount := countP_lt_le_of_sorted s hsort (percentileSorted s 2)
          (2 * (s.length - 1) / 100 + 1) hcase hble
        omega
      · have hcount : s.countP (fun x => decide (x < percentileSorted s 2))
            ≤ s.length := List.countP_le_length _
        omega
  · by_cases hc : c = []
    · subst hc
      simp
    · have hn : 0 < c.length := List.length_pos.mpr hc
      have hperm : List.Perm (c.insertionSort (· ≤ ·)) c :=
        List.perm_insertionSort _ c
      have hsort := List.sorted_insertionSort (· ≤ ·) c
      set s := c.insertionSort (· ≤ ·) with hsdef
      have hlen : s.length = c.length := hperm.length_eq
      have hpc : percentile c 98 = percentileSorted s 98 := by
        rw [hsdef]
        rfl
      have hcnt : c.countP (fun x => decide (percentile c 98 < x))
          = s.countP (fun x => decide (percentile c 98 < x)) :=
        (hperm.countP_eq _).symm
      have hflval : ⌊(98 : Rat) * ((s.length : Rat) - 1) / 100⌋.toNat
          = 98 * (s.length - 1) / 100 := by
        have hcast2 : (98 : Rat) * ((s.length : Rat) - 1) / 100
            = ((98 * (s.length - 1) : Nat) : Rat) / ((100 : Nat) : Rat) := by
          push_cast [show 1 ≤ s.length from by omega]
          ring
        rw [hcast2, floor_toNat_natDiv]
      have hh98 : 0 ≤ (98 : Rat) * ((s.length : Rat) - 1) / 100 := by
        have hone : (1 : Rat) ≤ (s.length : Rat) := by
          exact_mod_cast (by omega : 1 ≤ s.length)
        have hnum : 0 ≤ (98 : Rat) * ((s.length : Rat) - 1) := by nlinarith
        exact div_nonneg hnum (by norm_num)
      have hm98 : 98 * (s.length - 1) / 100 < s.length := by omega
      have hlb98 := (percentileSorted_bounds s hsort 98 hh98).1
      rw [hflval] at hlb98
      rw [List.getD_eq_getElem s 0 hm98] at hlb98
      have hble : s.get ⟨98 * (s.length - 1) / 100, hm98⟩ ≤ percentileSorted s 98 := by
        simpa using hlb98
      have hcount := countP_gt_le_of_sorted s hsort (percentileSorted s 98)
        (98 * (s.length - 1) / 100) hm98 hble
      rw [hcnt, hpc]
      omega

/-- C8 counterexample: on the ten values `0..9`, clipping to the `[2, 98]`
percentile range changes the value `0` (to `9/50`) at the low tail, so one
of ten values (10%) is clipped there, refuting the claimed 2% bound per
tail (`1 > 2% of 10`). -/
theorem clip_tail_fraction_exceeds_two_percent :
    clip [0, 1, 2, 3, 4, 5, 6, 7, 8, 9] (PercArg.pair 2 98)
      = [9 / 50, 1, 2, 3, 4, 5, 6, 7, 8, 441 / 50]
    ∧ ¬ ((1 : Rat) ≤ 2 / 100 * 10) := by
  have hsorted : List.Sorted (· ≤ ·) ([0, 1, 2, 3, 4, 5, 6, 7, 8, 9] : List Rat) := by
    norm_num [List.sorted_cons]
  have hs : ([0, 1, 2, 3, 4, 5, 6, 7, 8, 9] : List Rat).insertionSort (· ≤ ·)
      = [0, 1, 2, 3, 4, 5, 6, 7, 8, 9] := hsorted.insertionSort_eq
  have h2 : percentile [0, 1, 2, 3, 4, 5, 6, 7, 8, 9] 2 = 9 / 50 := by
    unfold percentile
    rw [hs]
    unfold percentileSorted
    simp only [List.length_cons, List.length_nil]
    norm_num [List.getD_cons_zero, List.getD_cons_succ]
  have h98 : percentile [0, 1, 2, 3, 4, 5, 6, 7, 8, 9] 98 = 441 / 50 := by
    unfold percentile
    rw [hs]
    unfold percentileSorted
    simp only [List.length_cons, List.length_nil]
    norm_num [List.getD_cons_zero, List.getD_cons_succ, Int.toNat_ofNat,
      List.getElem_cons_succ, List.getElem_cons_zero]
    simp only [show Int.toNat 8 = 8 from rfl,
      show ([0, 1, 2, 3, 4, 5, 6, 7, 8, 9] : List Rat)[(8 : Nat)] = 8 from rfl,
      show ([1, 2, 3, 4, 5, 6, 7, 8, 9] : List Rat)[(8 : Nat)] = 9 from rfl]
    norm_num
  constructor
  · simp only [clip]
    rw [h2, h98]
    simp only [List.map]
    norm_num [max_def, min_def]
  · norm_num

/-- Witness for C8 (amended) at a concrete three-element array. -/
theorem clip_percentile_tail_bounds_witness :
    List.Forall₂
      (fun x y => percentile [3, 1, 2] 2 ≤ x → x ≤ percentile [3, 1, 2] 98 → y = x)
      [3, 1, 2] (clip [3, 1, 2] (PercArg.pair 2 98))
    ∧ List.countP (fun x => decide (x < percentile [3, 1, 2] 2)) [3, 1, 2]
        ≤ 2 * (([3, 1, 2] : List Rat).length - 1) / 100 + 1
    ∧ List.countP (fun x => decide (percentile [3, 1, 2] 98 < x)) [3, 1, 2]
        ≤ (([3, 1, 2] : List Rat).length - 1)
          - 98 * (([3, 1, 2] : List Rat).length - 1) / 100 :=
  clip_percentile_tail_bounds [3, 1, 2]

end ScveloPlot
